import Mathlib

/-!
Verification of the word-segmentation evaluator in `src/word_seg.py`.

The evaluator (`do_evaluation`, lines 270-337 of the source) reads a file of
tab-separated `(character, expectedTag, actualTag)` lines, blank lines
separating sentences.  Per sentence it assembles two fragment (word) lists,
one per tag stream, then runs a greedy character-length-synchronized
alignment that classifies consumed fragments as true or false positives.
`main` (line 387) finally prints `precision = tp / actual_token_count` and
`recall = tp / expected_token_count`.

The embedding below models a line as a `List Char`, a fragment as a
`List Char`, and the mutable state of `do_evaluation` as `EvalState`.
Fatal conditions of the Python code — a `ValueError` from unpacking a line
that does not split into exactly three fields, an `IndexError` from
`pop(0)` on an empty list, and an `AssertionError` from the post-loop
assert — are modelled as `Option.none`.
-/

namespace WordSeg

/-- The whitespace characters stripped by Python's `str.strip()` that can
occur in this ASCII/TSV input format (space, tab, newline, carriage return,
vertical tab, form feed). -/
def isWs (c : Char) : Bool :=
  c = ' ' || c = '\t' || c = '\n' || c = '\x0d' || c = '\x0b' || c = '\x0c'

/-- Model of `line.strip()` (source line 287): remove leading and trailing
whitespace. -/
def strip (l : List Char) : List Char :=
  ((l.dropWhile isWs).reverse.dropWhile isWs).reverse

/-- Model of `tag == '0' or tag == '2'` (source lines 324 and 331): the two
boundary-start tag values. -/
def isStartTag (tag : List Char) : Bool :=
  tag = ['0'] || tag = ['2']

/-- One per-character fragment-assembly step for one tag stream (source
lines 324-329 for the expected stream, 331-336 for the actual stream, which
are textually symmetric): on a boundary-start tag the current fragment, if
non-empty, is pushed onto the word list and the character starts a new
fragment; on a continuation tag the character is appended to the current
fragment.  Returns the updated `(words, fragment)` pair. -/
def applyTag (ws : List (List Char)) (frag ch tag : List Char) :
    List (List Char) × List Char :=
  if isStartTag tag then
    (if frag.length > 0 then ws ++ [frag] else ws, ch)
  else
    (ws, frag ++ ch)

/-- The end-of-sentence flush (source lines 291-296): if the current
fragment is non-empty it is appended to the word list. -/
def flushFrag (ws : List (List Char)) (frag : List Char) : List (List Char) :=
  if frag.length > 0 then ws ++ [frag] else ws

/-- The alignment loop of `do_evaluation` (source lines 303-320), as a
single recursion with an explicit fuel argument.  The Python outer `while`
always begins an iteration with `len(exs) == len(acs)` (the inner `while`
only exits on equality and both accumulators start empty), so the loop is
equivalent to the step order encoded here: when the accumulator lengths
differ, perform one resynchronization pop (from the actual queue, charged
as a false positive, if `exs` is longer; from the expected queue, uncharged,
otherwise); when they are equal and the expected queue is empty, perform the
post-loop assert (line 321) that the actual queue is also empty; when they
are equal and the expected queue is non-empty, pop one fragment from each
queue — actual first, as in the source — and charge a true positive if the
two fragments are equal, else a false positive.  A `pop(0)` from an empty
list (`IndexError`) and an assert failure are both `none`.  Every recursive
call removes at least one fragment from the queues, so fuel
`ews.length + aws.length + 1` (used by `alignLoop` below) never runs out. -/
def alignLoopF : Nat → List (List Char) → List (List Char) →
    List Char → List Char → Nat → Nat → Option (Nat × Nat)
  | 0, _, _, _, _, _, _ => none
  | fuel + 1, ews, aws, exs, acs, tp, fp =>
    if exs.length = acs.length then
      match ews with
      | [] => if aws = [] then some (tp, fp) else none
      | ew :: ews' =>
        match aws with
        | [] => none
        | aw :: aws' =>
          if aw = ew then
            alignLoopF fuel ews' aws' (exs ++ ew) (acs ++ aw) (tp + 1) fp
          else
            alignLoopF fuel ews' aws' (exs ++ ew) (acs ++ aw) tp (fp + 1)
    else if exs.length > acs.length then
      match aws with
      | [] => none
      | aw :: aws' => alignLoopF fuel ews aws' exs (acs ++ aw) tp (fp + 1)
    else
      match ews with
      | [] => none
      | ew :: ews' => alignLoopF fuel ews' aws (exs ++ ew) acs tp fp

/-- The alignment loop with enough fuel for all its pops (one fragment is
popped per step, plus one final step for the exit check). -/
def alignLoop (ews aws : List (List Char)) (exs acs : List Char)
    (tp fp : Nat) : Option (Nat × Nat) :=
  alignLoopF (ews.length + aws.length + 1) ews aws exs acs tp fp

/-- The alignment loop instrumented to count false positives by phase:
the same recursion as `alignLoopF`, with the single `fp` counter split into
`fpm` (charged in the match phase, source line 312) and `fpr` (charged in
the resynchronization phase, source line 317).  `fpm + fpr` tracks the
source's `fp`. -/
def alignLoopPhF : Nat → List (List Char) → List (List Char) →
    List Char → List Char → Nat → Nat → Nat → Option (Nat × Nat × Nat)
  | 0, _, _, _, _, _, _, _ => none
  | fuel + 1, ews, aws, exs, acs, tp, fpm, fpr =>
    if exs.length = acs.length then
      match ews with
      | [] => if aws = [] then some (tp, fpm, fpr) else none
      | ew :: ews' =>
        match aws with
        | [] => none
        | aw :: aws' =>
          if aw = ew then
            alignLoopPhF fuel ews' aws' (exs ++ ew) (acs ++ aw) (tp + 1) fpm fpr
          else
            alignLoopPhF fuel ews' aws' (exs ++ ew) (acs ++ aw) tp (fpm + 1) fpr
    else if exs.length > acs.length then
      match aws with
      | [] => none
      | aw :: aws' => alignLoopPhF fuel ews aws' exs (acs ++ aw) tp fpm (fpr + 1)
    else
      match ews with
      | [] => none
      | ew :: ews' => alignLoopPhF fuel ews' aws (exs ++ ew) acs tp fpm fpr

/-- Phase-instrumented alignment loop with sufficient fuel. -/
def alignLoopPh (ews aws : List (List Char)) (exs acs : List Char)
    (tp fpm fpr : Nat) : Option (Nat × Nat × Nat) :=
  alignLoopPhF (ews.length + aws.length + 1) ews aws exs acs tp fpm fpr

/-- The mutable state of `do_evaluation` (source lines 276-284). -/
structure EvalState where
  tp : Nat
  fp : Nat
  expected_token_count : Nat
  actual_token_count : Nat
  expect_words : List (List Char)
  actual_words : List (List Char)
  expect_word_frag : List Char
  actual_word_frag : List Char
  sentence_count : Nat
deriving DecidableEq

/-- The initial state of `do_evaluation` (source lines 276-284): all
counters zero, all lists and fragments empty. -/
def initState : EvalState := ⟨0, 0, 0, 0, [], [], [], [], 0⟩

/-- The blank-line (end-of-sentence) branch of `do_evaluation` (source
lines 290-321): flush both pending fragments, add the assembled list
lengths to the token counters (before any fragment is consumed), run the
alignment loop on empty accumulators, and check the post-loop assert.  The
`found tow empty line in a raw.` stderr warning for an empty sentence
(lines 297-298) has no effect on the state and is not modelled. -/
def endOfSentence (s : EvalState) : Option EvalState :=
  let ews := flushFrag s.expect_words s.expect_word_frag
  let aws := flushFrag s.actual_words s.actual_word_frag
  match alignLoop ews aws [] [] s.tp s.fp with
  | none => none
  | some (tp, fp) =>
    some ⟨tp, fp, s.expected_token_count + ews.length,
          s.actual_token_count + aws.length, [], [], [], [],
          s.sentence_count + 1⟩

/-- Processing of one input line by `do_evaluation` (source lines 286-336):
strip the line; a line that strips to nothing ends the current sentence;
otherwise the stripped line must split on tabs into exactly three fields
(`char, expect_tag, actual_tag = line.split('\t')`, line 323 — any other
field count raises `ValueError`, modelled as `none`) and each tag stream's
fragment state is updated independently. -/
def processLine (s : EvalState) (line : List Char) : Option EvalState :=
  let l := strip line
  if l.length = 0 then
    endOfSentence s
  else
    match l.splitOn '\t' with
    | [ch, etag, atag] =>
      let e := applyTag s.expect_words s.expect_word_frag ch etag
      let a := applyTag s.actual_words s.actual_word_frag ch atag
      some { s with expect_words := e.1, expect_word_frag := e.2,
                    actual_words := a.1, actual_word_frag := a.2 }
    | _ => none

/-- The `for line in evf` loop of `do_evaluation` (source lines 286-336)
over a list of input lines, propagating any fatal error. -/
def runLines : EvalState → List (List Char) → Option EvalState
  | s, [] => some s
  | s, line :: rest =>
    match processLine s line with
    | none => none
    | some s' => runLines s' rest

/-- `do_evaluation` over a list of input lines.  Note that after the `for`
loop the source returns immediately (line 337): state accumulated since the
last blank line is not flushed.  Returns the tuple in the source's order:
`(tp, fp, actual_token_count, expected_token_count)`. -/
def do_evaluation (lines : List (List Char)) : Option (Nat × Nat × Nat × Nat) :=
  match runLines initState lines with
  | none => none
  | some s => some (s.tp, s.fp, s.actual_token_count, s.expected_token_count)

/-- The metric computation of `main` (source line 387):
`precision = (tp + 0.0) / actual_token_count` is evaluated first, then
`recall = (tp + 0.0) / expected_token_count`; a zero denominator raises an
uncaught `ZeroDivisionError`, modelled as `Except.error`.  Divisions are
modelled over `Rat` (both quotients are exact ratios of machine integers,
and the properties proved about them concern only the values 1 and
definedness). -/
def reportMetrics (tp atc etc : Nat) : Except String (Rat × Rat) :=
  if atc = 0 then .error "ZeroDivisionError"
  else if etc = 0 then .error "ZeroDivisionError"
  else .ok ((tp : Rat) / (atc : Rat), (tp : Rat) / (etc : Rat))

/-- The fragment list a single tag stream assembles for one sentence: the
per-character steps of `applyTag` folded over the sentence's
`(character, tag)` pairs starting from an empty word list and empty
fragment buffer, followed by the end-of-sentence flush.  This is exactly
the composition of the source's per-line updates (lines 324-336) with the
flush (lines 291-296) for one stream. -/
def assembleFragments (pairs : List (List Char × List Char)) : List (List Char) :=
  let st := pairs.foldl (fun st p => applyTag st.1 st.2 p.1 p.2) ([], [])
  flushFrag st.1 st.2

/-- A concrete mid-run state at a sentence boundary: expected fragments
`["ab"]` with pending fragment `"c"`, actual fragments `["a"]` with pending
fragment `"bc"`, and non-zero counters from earlier sentences. -/
def sampleSentenceState : EvalState :=
  ⟨1, 2, 3, 4, [['a', 'b']], [['a']], ['c'], ['b', 'c'], 5⟩

/-- The state `endOfSentence` produces from `sampleSentenceState`: the
alignment of `["ab", "c"]` against `["a", "bc"]` charges two more false
positives, and each token counter grows by two. -/
def sampleSentenceStateAfter : EvalState :=
  ⟨1, 4, 5, 6, [], [], [], [], 6⟩

/-- Invariant maintained while every processed line carries identical
expected and actual tags: the two streams' assembly states coincide, no
false positive has been charged, and each token counter equals the number
of true positives. -/
def SymState (s : EvalState) : Prop :=
  s.actual_words = s.expect_words ∧ s.actual_word_frag = s.expect_word_frag ∧
  s.fp = 0 ∧ s.expected_token_count = s.tp ∧ s.actual_token_count = s.tp

/-- A one-sentence input whose expected fragments are `["ab", "cd"]` and
whose actual fragments are `["a", "bcd"]` (tag `0` = boundary start, tag
`1` = continuation), terminated by a blank line: the spec's total-mismatch
scenario. -/
def mismatchLines : List (List Char) :=
  [['a', '\t', '0', '\t', '0'],
   ['b', '\t', '1', '\t', '0'],
   ['c', '\t', '0', '\t', '1'],
   ['d', '\t', '1', '\t', '1'],
   []]

/-! ### Helper lemmas about the alignment loop -/

/-- Whenever the alignment loop completes (for any fuel), the total of true
and false positives grows by exactly the number of fragments popped from
the actual queue: the match phase pops one actual fragment and charges one
classification (tp or fp), an actual-side resynchronization pop charges one
fp, and an expected-side resynchronization pop charges nothing.  On
completion the actual queue is fully drained (the post-loop assert), so the
growth is exactly `aws.length`. -/
theorem alignLoopF_conservation : ∀ f ews aws exs acs tp fp tp' fp',
    alignLoopF f ews aws exs acs tp fp = some (tp', fp') →
    tp' + fp' = tp + fp + aws.length := by
  intro f
  induction f with
  | zero => intro ews aws exs acs tp fp tp' fp' h; simp [alignLoopF] at h
  | succ f ih =>
    intro ews aws exs acs tp fp tp' fp' h
    simp only [alignLoopF] at h
    by_cases hlen : exs.length = acs.length
    · simp only [hlen, if_true] at h
      match ews, aws, h with
      | [], [], h => simp_all
      | [], aw :: aws', h => simp at h
      | ew :: ews', [], h => simp at h
      | ew :: ews', aw :: aws', h =>
        by_cases heq : aw = ew
        · simp only [heq, if_true] at h
          have := ih _ _ _ _ _ _ _ _ h
          simp [List.length_cons] at this ⊢
          omega
        · simp only [heq, if_false] at h
          have := ih _ _ _ _ _ _ _ _ h
          simp [List.length_cons] at this ⊢
          omega
    · simp only [hlen, if_false] at h
      by_cases hgt : exs.length > acs.length
      · simp only [hgt, if_true] at h
        match aws, h with
        | [], h => simp at h
        | aw :: aws', h =>
          have := ih _ _ _ _ _ _ _ _ h
          simp [List.length_cons] at this ⊢
          omega
      · simp only [hgt, if_false] at h
        match ews, h with
        | [], h => simp at h
        | ew :: ews', h =>
          have := ih _ _ _ _ _ _ _ _ h
          omega

/-- The phase-instrumented loop computes the same result as the plain loop,
with the single false-positive counter equal to the sum of the two
per-phase counters. -/
theorem alignLoopPhF_fp : ∀ f ews aws exs acs tp fpm fpr,
    alignLoopF f ews aws exs acs tp (fpm + fpr) =
      (alignLoopPhF f ews aws exs acs tp fpm fpr).map
        (fun r => (r.1, r.2.1 + r.2.2)) := by
  intro f
  induction f with
  | zero => intro ews aws exs acs tp fpm fpr; simp [alignLoopF, alignLoopPhF]
  | succ f ih =>
    intro ews aws exs acs tp fpm fpr
    simp only [alignLoopF, alignLoopPhF]
    by_cases hlen : exs.length = acs.length
    · simp only [hlen, if_true]
      match ews, aws with
      | [], [] => simp
      | [], aw :: aws' => simp
      | ew :: ews', [] => simp
      | ew :: ews', aw :: aws' =>
        by_cases heq : aw = ew
        · simp only [heq, if_true]
          exact ih _ _ _ _ _ _ _
        · simp only [heq, if_false]
          have h1 : fpm + fpr + 1 = (fpm + 1) + fpr := by omega
          rw [h1]
          exact ih _ _ _ _ _ _ _
    · simp only [hlen, if_false]
      by_cases hgt : exs.length > acs.length
      · simp only [hgt, if_true]
        match aws with
        | [] => simp
        | aw :: aws' =>
          have h1 : fpm + fpr + 1 = fpm + (fpr + 1) := by omega
          rw [h1]
          exact ih _ _ _ _ _ _ _
      · simp only [hgt, if_false]
        match ews with
        | [] => simp
        | ew :: ews' => exact ih _ _ _ _ _ _ _

/-- Totality of the alignment loop: when every queued fragment is non-empty
and the two sides account for the same number of characters (accumulated
plus queued), the loop, given fuel exceeding the total queue length, never
pops from an empty queue and passes the final assert — it returns a result.
This is the defensive-assertion argument of the spec: the queue that is
about to be popped is non-empty because the other side still owns strictly
more unconsumed characters. -/
theorem alignLoopF_total : ∀ f ews aws exs acs tp fp,
    ews.length + aws.length < f →
    (∀ w ∈ ews, w ≠ []) → (∀ w ∈ aws, w ≠ []) →
    exs.length + (ews.map List.length).sum
      = acs.length + (aws.map List.length).sum →
    (alignLoopF f ews aws exs acs tp fp).isSome := by
  intro f
  induction f with
  | zero => intro ews aws exs acs tp fp hf; omega
  | succ f ih =>
    intro ews aws exs acs tp fp hf hews haws hsum
    simp only [alignLoopF]
    by_cases hlen : exs.length = acs.length
    · simp only [hlen, if_true]
      match ews, hews, hsum with
      | [], hews, hsum =>
        match aws, haws, hsum with
        | [], _, _ => simp
        | aw :: aws', haws, hsum =>
          have hpos : 0 < aw.length :=
            List.length_pos.mpr (haws aw (List.mem_cons_self aw aws'))
          simp at hsum
          omega
      | ew :: ews', hews, hsum =>
        match aws, haws, hsum with
        | [], haws, hsum =>
          have hpos : 0 < ew.length :=
            List.length_pos.mpr (hews ew (List.mem_cons_self ew ews'))
          simp at hsum
          omega
        | aw :: aws', haws, hsum =>
          have hnext : (exs ++ ew).length + (ews'.map List.length).sum
              = (acs ++ aw).length + (aws'.map List.length).sum := by
            simp [List.length_append] at hsum ⊢
            omega
          have hews' : ∀ w ∈ ews', w ≠ [] :=
            fun w hw => hews w (List.mem_cons_of_mem ew hw)
          have haws' : ∀ w ∈ aws', w ≠ [] :=
            fun w hw => haws w (List.mem_cons_of_mem aw hw)
          have hf' : ews'.length + aws'.length < f := by
            simp [List.length_cons] at hf
            omega
          by_cases heq : aw = ew
          · simp only [heq, if_true]
            rw [heq] at hnext
            exact ih ews' aws' _ _ _ _ hf' hews' haws' hnext
          · simp only [heq, if_false]
            exact ih ews' aws' _ _ _ _ hf' hews' haws' hnext
    · simp only [hlen, if_false]
      by_cases hgt : exs.length > acs.length
      · simp only [hgt, if_true]
        match aws, haws, hsum with
        | [], haws, hsum =>
          simp at hsum
          omega
        | aw :: aws', haws, hsum =>
          have haws' : ∀ w ∈ aws', w ≠ [] :=
            fun w hw => haws w (List.mem_cons_of_mem aw hw)
          have hf' : ews.length + aws'.length < f := by
            simp [List.length_cons] at hf
            omega
          have hnext : exs.length + (ews.map List.length).sum
              = (acs ++ aw).length + (aws'.map List.length).sum := by
            simp [List.length_append] at hsum ⊢
            omega
          exact ih ews aws' _ _ _ _ hf' hews haws' hnext
      · simp only [hgt, if_false]
        match ews, hews, hsum with
        | [], hews, hsum =>
          simp at hsum
          omega
        | ew :: ews', hews, hsum =>
          have hews' : ∀ w ∈ ews', w ≠ [] :=
            fun w hw => hews w (List.mem_cons_of_mem ew hw)
          have hf' : ews'.length + aws.length < f := by
            simp [List.length_cons] at hf
            omega
          have hnext : (exs ++ ew).length + (ews'.map List.length).sum
              = acs.length + (aws.map List.length).sum := by
            simp [List.length_append] at hsum ⊢
            omega
          exact ih ews' aws _ _ _ _ hf' hews' haws hnext

/-- When both queues hold the same fragment list and the accumulators have
equal length, every iteration is a matching match-phase step: the loop
returns with `tp` increased by the list length and `fp` unchanged. -/
theorem alignLoopF_same : ∀ ws f exs acs tp fp,
    ws.length + ws.length < f → exs.length = acs.length →
    alignLoopF f ws ws exs acs tp fp = some (tp + ws.length, fp) := by
  intro ws
  induction ws with
  | nil =>
    intro f exs acs tp fp hf hlen
    match f with
    | g + 1 => simp [alignLoopF, hlen]
  | cons w ws ih =>
    intro f exs acs tp fp hf hlen
    match f, hf with
    | g + 1, hf =>
      have hlen' : (exs ++ w).length = (acs ++ w).length := by
        simp [List.length_append, hlen]
      have hg : ws.length + ws.length < g := by
        simp [List.length_cons] at hf
        omega
      simp only [alignLoopF, hlen, if_true]
      rw [ih g _ _ (tp + 1) fp hg hlen']
      simp [List.length_cons]
      omega

/-! ### Helper lemmas about line processing -/

/-- A list of length three is literally a three-element list. -/
theorem length_eq_three {α : Type} (xs : List α) (h : xs.length = 3) :
    ∃ a b c, xs = [a, b, c] := by
  cases xs with
  | nil => simp at h
  | cons a t =>
    cases t with
    | nil => simp at h
    | cons b t2 =>
      cases t2 with
      | nil => simp at h
      | cons c t3 =>
        cases t3 with
        | nil => exact ⟨a, b, c, rfl⟩
        | cons d t4 => simp [List.length_cons] at h

/-- Running the line loop over a concatenation runs it over the two parts
in sequence, propagating a fatal error from the first part. -/
theorem runLines_append : ∀ xs s ys,
    runLines s (xs ++ ys) =
      match runLines s xs with
      | none => none
      | some s' => runLines s' ys := by
  intro xs
  induction xs with
  | nil => intro s ys; rfl
  | cons x xs ih =>
    intro s ys
    simp only [List.cons_append, runLines]
    cases processLine s x with
    | none => rfl
    | some s' => exact ih s' ys

/-- A well-formed data line (non-blank after stripping, exactly three
tab-separated fields) is processed without error and touches only the
fragment-assembly state: the four score counters are unchanged. -/
theorem processLine_data_counters : ∀ s l,
    strip l ≠ [] → ((strip l).splitOn '\t').length = 3 →
    ∃ s', processLine s l = some s' ∧ s'.tp = s.tp ∧ s'.fp = s.fp ∧
      s'.expected_token_count = s.expected_token_count ∧
      s'.actual_token_count = s.actual_token_count := by
  intro s l h1 h2
  obtain ⟨c, e, a, hts⟩ := length_eq_three _ h2
  have h0 : ¬ (strip l).length = 0 := by
    simpa [List.length_eq_zero] using h1
  have hp : processLine s l =
      some { s with
             expect_words := (applyTag s.expect_words s.expect_word_frag c e).1,
             expect_word_frag := (applyTag s.expect_words s.expect_word_frag c e).2,
             actual_words := (applyTag s.actual_words s.actual_word_frag c a).1,
             actual_word_frag := (applyTag s.actual_words s.actual_word_frag c a).2 } := by
    simp only [processLine, h0, if_false, hts]
  exact ⟨_, hp, rfl, rfl, rfl, rfl⟩

/-- A run over well-formed data lines only (no blank line) succeeds and
leaves all four score counters unchanged. -/
theorem runLines_data_counters : ∀ trailing s,
    (∀ l ∈ trailing, strip l ≠ [] ∧ ((strip l).splitOn '\t').length = 3) →
    ∃ s', runLines s trailing = some s' ∧ s'.tp = s.tp ∧ s'.fp = s.fp ∧
      s'.expected_token_count = s.expected_token_count ∧
      s'.actual_token_count = s.actual_token_count := by
  intro trailing
  induction trailing with
  | nil => intro s _; exact ⟨s, rfl, rfl, rfl, rfl, rfl⟩
  | cons l rest ih =>
    intro s h
    obtain ⟨h1, h2⟩ := h l (List.mem_cons_self l rest)
    obtain ⟨s', hs', htp, hfp, hetc, hatc⟩ := processLine_data_counters s l h1 h2
    obtain ⟨s'', hs'', htp', hfp', hetc', hatc'⟩ :=
      ih s' (fun x hx => h x (List.mem_cons_of_mem l hx))
    refine ⟨s'', ?_, ?_, ?_, ?_, ?_⟩
    · simp only [runLines, hs', hs'']
    · omega
    · omega
    · omega
    · omega

/-! ### Helper lemmas about fragment assembly -/

/-- Invariant of the fragment-assembly fold: the characters held by the
word list and the pending fragment together are exactly the starting
contents plus every character consumed so far, in order. -/
theorem foldl_applyTag_flatten : ∀ (pairs : List (List Char × List Char))
    (ws : List (List Char)) (frag : List Char),
    (pairs.foldl (fun st p => applyTag st.1 st.2 p.1 p.2) (ws, frag)).1.flatten
      ++ (pairs.foldl (fun st p => applyTag st.1 st.2 p.1 p.2) (ws, frag)).2
    = ws.flatten ++ frag ++ (pairs.map Prod.fst).flatten := by
  intro pairs
  induction pairs with
  | nil => intro ws frag; simp
  | cons p ps ih =>
    intro ws frag
    simp only [List.foldl_cons, List.map_cons, List.flatten_cons]
    rw [ih]
    by_cases hst : isStartTag p.2
    · by_cases hfr : frag.length > 0
      · simp [applyTag, hst, hfr, List.append_assoc]
      · have : frag = [] := List.length_eq_zero.mp (by omega)
        simp [applyTag, hst, hfr, this, List.append_assoc]
    · simp [applyTag, hst, List.append_assoc]

/-! ### Helper lemmas for identical tag streams -/

/-- End-of-sentence processing preserves `SymState`: the two flushed lists
are identical, so the alignment loop matches every pair, adds the common
list length to `tp`, and charges no false positive. -/
theorem endOfSentence_sym : ∀ s, SymState s →
    ∃ s', endOfSentence s = some s' ∧ SymState s' := by
  intro s hs
  obtain ⟨hw, hf, hfp, hetc, hatc⟩ := hs
  have haws : flushFrag s.actual_words s.actual_word_frag
      = flushFrag s.expect_words s.expect_word_frag := by rw [hw, hf]
  have halign : alignLoop (flushFrag s.expect_words s.expect_word_frag)
      (flushFrag s.actual_words s.actual_word_frag) [] [] s.tp s.fp
      = some (s.tp + (flushFrag s.expect_words s.expect_word_frag).length,
              s.fp) := by
    rw [haws]
    exact alignLoopF_same _ _ _ _ _ _ (by omega) rfl
  refine ⟨⟨s.tp + (flushFrag s.expect_words s.expect_word_frag).length, s.fp,
           s.expected_token_count + (flushFrag s.expect_words s.expect_word_frag).length,
           s.actual_token_count + (flushFrag s.actual_words s.actual_word_frag).length,
           [], [], [], [], s.sentence_count + 1⟩, ?_, ?_⟩
  · simp only [endOfSentence, halign]
  · refine ⟨rfl, rfl, hfp, ?_, ?_⟩ <;> simp [haws] <;> omega

/-- Processing a line whose expected and actual tags agree (or a blank
line) preserves `SymState`. -/
theorem processLine_sym : ∀ s l, SymState s →
    (strip l = [] ∨ ∃ c t, (strip l).splitOn '\t' = [c, t, t]) →
    ∃ s', processLine s l = some s' ∧ SymState s' := by
  intro s l hs hl
  cases hl with
  | inl hblank =>
    obtain ⟨s', hs', hsym⟩ := endOfSentence_sym s hs
    refine ⟨s', ?_, hsym⟩
    simp only [processLine, hblank, List.length_nil, if_true]
    exact hs'
  | inr hdata =>
    obtain ⟨c, t, hts⟩ := hdata
    have h0 : ¬ (strip l).length = 0 := by
      intro h
      rw [List.length_eq_zero.mp h] at hts
      simp [List.splitOn] at hts
    obtain ⟨hw, hf, hfp, hetc, hatc⟩ := hs
    have hp : processLine s l =
        some { s with
               expect_words := (applyTag s.expect_words s.expect_word_frag c t).1,
               expect_word_frag := (applyTag s.expect_words s.expect_word_frag c t).2,
               actual_words := (applyTag s.actual_words s.actual_word_frag c t).1,
               actual_word_frag := (applyTag s.actual_words s.actual_word_frag c t).2 } := by
      simp only [processLine, h0, if_false, hts]
    refine ⟨_, hp, ?_, ?_, hfp, hetc, hatc⟩ <;> simp [hw, hf]

/-- Running the whole loop over lines with identical tag streams preserves
`SymState`. -/
theorem runLines_sym : ∀ lines s, SymState s →
    (∀ l ∈ lines, strip l = [] ∨ ∃ c t, (strip l).splitOn '\t' = [c, t, t]) →
    ∃ s', runLines s lines = some s' ∧ SymState s' := by
  intro lines
  induction lines with
  | nil => intro s hs _; exact ⟨s, rfl, hs⟩
  | cons l rest ih =>
    intro s hs h
    obtain ⟨s', hs', hsym⟩ := processLine_sym s l hs (h l (List.mem_cons_self l rest))
    obtain ⟨s'', hs'', hsym'⟩ := ih s' hsym (fun x hx => h x (List.mem_cons_of_mem l hx))
    exact ⟨s'', by simp only [runLines, hs', hs''], hsym'⟩

/-! ### Helper lemmas about stripping -/

/-- A line consisting solely of whitespace strips to the empty line. -/
theorem strip_eq_nil_of_ws : ∀ l : List Char, (∀ c ∈ l, isWs c = true) →
    strip l = [] := by
  intro l h
  unfold strip
  have h1 : l.dropWhile isWs = [] := List.dropWhile_eq_nil_iff.mpr h
  simp [h1]

/-! ### Claim theorems -/

/-- C1 (counterexample to the claim as stated): on the sentence with
expected fragments `["a", "b"]` and actual fragments `["ab"]` all three
fragments are popped (the loop drains both queues and returns), yet
`tp + fp = 0 + 1 = 1 ≠ 3`: the resynchronization pop of `"b"` from the
expected queue is charged to nothing, so it is not the case that every
fragment popped during resynchronization is charged as a false positive,
and `tp + fp` is not the total number of fragments popped from both
queues. -/
theorem C1_counterexample :
    alignLoop [['a'], ['b']] [['a', 'b']] [] [] 0 0 = some (0, 1) ∧
    (0 + 1 : Nat) ≠ [['a'], ['b']].length + [['a', 'b']].length :=
  ⟨by decide, by decide⟩

/-- C1 (amended): in the resynchronization phase only fragments popped from
the actual queue are charged as false positives (source line 317); a
fragment popped from the expected queue (lines 319-320) is not classified
at all.  Consequently, whenever the alignment loop completes,
`truePositives + falsePositives` grows by exactly the number of fragments
popped from the actual queue — the sentence's whole actual fragment list —
and each actual-queue pop is classified exactly once. -/
theorem C1_actual_side_conservation (ews aws : List (List Char))
    (exs acs : List Char) (tp fp tp' fp' : Nat)
    (h : alignLoop ews aws exs acs tp fp = some (tp', fp')) :
    tp' + fp' = tp + fp + aws.length :=
  alignLoopF_conservation _ ews aws exs acs tp fp tp' fp' h

/-- Witness for C1: the amended conservation law evaluated on the
counterexample sentence, where `tp + fp` ends at `1`, the length of the
actual fragment list. -/
theorem C1_actual_side_conservation_witness :
    (0 : Nat) + 1 = 0 + 0 + ([['a', 'b']] : List (List Char)).length :=
  C1_actual_side_conservation [['a'], ['b']] [['a', 'b']] [] [] 0 0 0 1
    (by decide)

/-- C2 (counterexample to the claim as stated): the single-line input
`"a\t0\t0"` with no trailing blank line yields all-zero counters — the
accumulated final sentence is not assembled, aligned or counted — whereas
the same input followed by a blank line yields `(1, 0, 1, 1)`. -/
theorem C2_counterexample :
    do_evaluation [['a', '\t', '0', '\t', '0']] = some (0, 0, 0, 0) ∧
    do_evaluation [['a', '\t', '0', '\t', '0'], []] = some (1, 0, 1, 1) :=
  ⟨by decide, by decide⟩

/-- C2 (amended): there is no flush-on-end-of-input.  The `for` loop of
`do_evaluation` only closes a sentence at a blank line, so any well-formed
data lines after the last blank line are silently discarded: they update
only the fragment-assembly buffers and change no counter, and the returned
tuple is that of the input truncated after its last blank line. -/
theorem C2_trailing_discarded (pre trailing : List (List Char))
    (h : ∀ l ∈ trailing, strip l ≠ [] ∧ ((strip l).splitOn '\t').length = 3) :
    do_evaluation (pre ++ trailing) = do_evaluation pre := by
  unfold do_evaluation
  rw [runLines_append]
  cases hr : runLines initState pre with
  | none => rfl
  | some s =>
    obtain ⟨s', hs', htp, hfp, hetc, hatc⟩ := runLines_data_counters trailing s h
    simp only [hs', htp, hfp, hetc, hatc]

/-- Witness for C2: a terminated one-sentence input followed by an
unterminated data line evaluates as if the trailing line were absent. -/
theorem C2_trailing_discarded_witness :
    do_evaluation ([['a', '\t', '0', '\t', '0'], []]
        ++ [['b', '\t', '0', '\t', '0']])
      = do_evaluation [['a', '\t', '0', '\t', '0'], []] :=
  C2_trailing_discarded _ _ (by decide)

/-- C3 (counterexample to the claim as stated): the empty input produces
`actualTokenCount = 0`, and the metric computation of `main` then raises an
uncaught `ZeroDivisionError` instead of reporting precision as undefined. -/
theorem C3_counterexample :
    do_evaluation ([] : List (List Char)) = some (0, 0, 0, 0) ∧
    reportMetrics 0 0 0 = Except.error "ZeroDivisionError" :=
  ⟨by decide, rfl⟩

/-- C3 (amended): when the whole run produces `actualTokenCount == 0` (or
`expectedTokenCount == 0`), the division in `main` raises an uncaught
`ZeroDivisionError` and the run aborts; no precision or recall value — NaN,
garbage or otherwise — is emitted, but neither is an explicit "undefined"
report. -/
theorem C3_zero_denominator_raises (tp atc etc : Nat)
    (h : atc = 0 ∨ etc = 0) :
    reportMetrics tp atc etc = Except.error "ZeroDivisionError" := by
  unfold reportMetrics
  cases h with
  | inl h => simp [h]
  | inr h => by_cases h2 : atc = 0 <;> simp [h, h2]

/-- Witness for C3: a run with five true positives but no actual tokens
still aborts with `ZeroDivisionError`. -/
theorem C3_zero_denominator_raises_witness :
    reportMetrics 5 0 3 = Except.error "ZeroDivisionError" :=
  C3_zero_denominator_raises 5 0 3 (Or.inl rfl)

/-- C4: for every sentence whose expected fragment list and actual fragment
list consist of non-empty fragments (every fragment is, by construction, a
non-empty run of characters) and concatenate to the same character
sequence, the alignment loop never pops from an empty queue, and when the
expected queue is exhausted the actual queue is exhausted too: the loop
returns a result instead of the `none` that models an `IndexError` or the
failure of the post-loop assert. -/
theorem C4_alignment_safe (ews aws : List (List Char)) (tp fp : Nat)
    (h1 : ∀ w ∈ ews, w ≠ []) (h2 : ∀ w ∈ aws, w ≠ [])
    (h3 : ews.flatten = aws.flatten) :
    ∃ tp' fp', alignLoop ews aws [] [] tp fp = some (tp', fp') := by
  have hlen : ews.flatten.length = aws.flatten.length := by rw [h3]
  rw [List.length_flatten, List.length_flatten] at hlen
  have hsum : ([] : List Char).length + (ews.map List.length).sum
      = ([] : List Char).length + (aws.map List.length).sum := by
    simpa using hlen
  have hs := alignLoopF_total (ews.length + aws.length + 1) ews aws [] []
    tp fp (by omega) h1 h2 hsum
  obtain ⟨p, hp⟩ := Option.isSome_iff_exists.mp hs
  exact ⟨p.1, p.2, hp⟩

/-- Witness for C4: the total-mismatch sentence (`["ab","cd"]` against
`["a","bcd"]` over the characters `abcd`) aligns without error. -/
theorem C4_alignment_safe_witness :
    ∃ tp' fp',
      alignLoop [['a', 'b'], ['c', 'd']] [['a'], ['b', 'c', 'd']] [] [] 0 0
        = some (tp', fp') :=
  C4_alignment_safe _ _ 0 0 (by decide) (by decide) (by decide)

/-- C5: for every sentence and each tag stream independently, concatenating
the fragments assembled from that stream's `(character, tag)` pairs, in
order, reproduces the sentence's character sequence exactly — no character
is dropped or duplicated. -/
theorem C5_reconstruction (pairs : List (List Char × List Char)) :
    (assembleFragments pairs).flatten = (pairs.map Prod.fst).flatten := by
  have h := foldl_applyTag_flatten pairs [] []
  simp only [List.flatten_nil, List.nil_append] at h
  by_cases hfr :
      (pairs.foldl (fun st p => applyTag st.1 st.2 p.1 p.2) ([], [])).2.length > 0
  · simp only [assembleFragments, flushFrag, hfr, if_true]
    rw [List.flatten_append]
    simpa using h
  · have hnil :
        (pairs.foldl (fun st p => applyTag st.1 st.2 p.1 p.2) ([], [])).2 = [] :=
      List.length_eq_zero.mp (by omega)
    simp only [assembleFragments, flushFrag, hfr, if_false]
    rw [hnil] at h
    simpa using h

/-- C6: on the total-mismatch sentence over the characters `abcd` — tags
assembling expected fragments `["ab", "cd"]` and actual fragments
`["a", "bcd"]`, followed by a terminating blank line — evaluation returns
`tp = 0`, `fp = 2`, `actualTokenCount = 2`, `expectedTokenCount = 2` (the
tuple order of the source's return), and the phase-instrumented loop shows
the two false positives split as exactly one from the match phase and
exactly one from the resynchronization phase. -/
theorem C6_total_mismatch :
    do_evaluation mismatchLines = some (0, 2, 2, 2) ∧
    alignLoopPh [['a', 'b'], ['c', 'd']] [['a'], ['b', 'c', 'd']] [] [] 0 0 0
      = some (0, 1, 1) :=
  ⟨by decide, by decide⟩

/-- C7: for every input whose non-blank lines each carry identical expected
and actual tags, the two fragment lists of every sentence are identical,
every pair is consumed in the match phase as a true positive, no false
positive is charged in either phase, both token counters equal `tp`, and —
given at least one token — precision and recall are both exactly 1. -/
theorem C7_perfect_match (lines : List (List Char))
    (h : ∀ l ∈ lines, strip l = [] ∨ ∃ c t, (strip l).splitOn '\t' = [c, t, t]) :
    ∃ n, do_evaluation lines = some (n, 0, n, n) ∧
      (0 < n → reportMetrics n n n = Except.ok (1, 1)) := by
  obtain ⟨s, hs, hw, hf, hfp, hetc, hatc⟩ :=
    runLines_sym lines initState ⟨rfl, rfl, rfl, rfl, rfl⟩ h
  refine ⟨s.tp, ?_, ?_⟩
  · simp only [do_evaluation, hs, hfp, hetc, hatc]
  · intro hn
    have hz : s.tp ≠ 0 := by omega
    have hcast : (s.tp : Rat) ≠ 0 := Nat.cast_ne_zero.mpr hz
    simp [reportMetrics, hz, div_self hcast]

/-- Witness for C7: a one-character sentence with agreeing tags yields
`(n, 0, n, n)` and unit precision and recall. -/
theorem C7_perfect_match_witness :
    ∃ n, do_evaluation [['a', '\t', '0', '\t', '0'], []] = some (n, 0, n, n) ∧
      (0 < n → reportMetrics n n n = Except.ok (1, 1)) :=
  C7_perfect_match _ (by
    intro l hl
    simp only [List.mem_cons, List.not_mem_nil, or_false] at hl
    rcases hl with rfl | rfl
    · exact Or.inr ⟨['a'], ['0'], by decide⟩
    · exact Or.inl (by decide))

/-- C8: closing a sentence adds to `expectedTokenCount` exactly the length
of the sentence's expected fragment list as flushed — before the alignment
loop consumes any fragment — symmetrically for `actualTokenCount`, and
bumps the sentence counter exactly once. -/
theorem C8_token_counts (s s' : EvalState) (h : endOfSentence s = some s') :
    s'.expected_token_count = s.expected_token_count
        + (flushFrag s.expect_words s.expect_word_frag).length ∧
    s'.actual_token_count = s.actual_token_count
        + (flushFrag s.actual_words s.actual_word_frag).length ∧
    s'.sentence_count = s.sentence_count + 1 := by
  simp only [endOfSentence] at h
  cases hx : alignLoop (flushFrag s.expect_words s.expect_word_frag)
      (flushFrag s.actual_words s.actual_word_frag) [] [] s.tp s.fp with
  | none => rw [hx] at h; simp at h
  | some p =>
    obtain ⟨tp', fp'⟩ := p
    rw [hx] at h
    simp only [Option.some.injEq] at h
    subst h
    exact ⟨rfl, rfl, rfl⟩

/-- Witness for C8: a concrete sentence state (expected fragments
`["ab", "c"]`, actual fragments `["a", "bc"]`) whose closure adds two
tokens to each counter and one to the sentence counter. -/
theorem C8_token_counts_witness :
    (sampleSentenceStateAfter.expected_token_count
        = sampleSentenceState.expected_token_count
          + (flushFrag sampleSentenceState.expect_words
              sampleSentenceState.expect_word_frag).length) ∧
    (sampleSentenceStateAfter.actual_token_count
        = sampleSentenceState.actual_token_count
          + (flushFrag sampleSentenceState.actual_words
              sampleSentenceState.actual_word_frag).length) ∧
    sampleSentenceStateAfter.sentence_count
        = sampleSentenceState.sentence_count + 1 :=
  C8_token_counts sampleSentenceState sampleSentenceStateAfter (by decide)

/-- C9: a non-blank line that does not split into exactly three
tab-separated fields is fatal: wherever it occurs in the input, the whole
evaluation aborts (returns `none`, the model of the uncaught `ValueError`)
and no score tuple is reported. -/
theorem C9_malformed_line (pre : List (List Char)) (bad : List Char)
    (post : List (List Char))
    (h1 : strip bad ≠ []) (h2 : ((strip bad).splitOn '\t').length ≠ 3) :
    do_evaluation (pre ++ bad :: post) = none := by
  unfold do_evaluation
  rw [runLines_append]
  cases hr : runLines initState pre with
  | none => rfl
  | some s =>
    have h0 : ¬ (strip bad).length = 0 := by
      simpa [List.length_eq_zero] using h1
    have hp : processLine s bad = none := by
      simp only [processLine, h0, if_false]
      cases hts : (strip bad).splitOn '\t' with
      | nil => rfl
      | cons a t =>
        cases t with
        | nil => rfl
        | cons b t2 =>
          cases t2 with
          | nil => rfl
          | cons c t3 =>
            cases t3 with
            | nil => rw [hts] at h2; simp at h2
            | cons d t4 => rfl
    simp only [runLines, hp]

/-- Witness for C9: a two-field line after a well-formed sentence aborts
the whole run. -/
theorem C9_malformed_line_witness :
    do_evaluation ([['a', '\t', '0', '\t', '0'], []]
        ++ ['x', '\t', '1'] :: []) = none :=
  C9_malformed_line _ _ _ (by decide) (by decide)

/-- C10: every line is stripped before classification, so a line of nothing
but whitespace is processed exactly like a zero-character line — it
terminates the current sentence rather than being parsed as a record. -/
theorem C10_whitespace_line (l : List Char) (h : ∀ c ∈ l, isWs c = true)
    (s : EvalState) :
    processLine s l = processLine s [] ∧ processLine s l = endOfSentence s := by
  have hl : strip l = [] := strip_eq_nil_of_ws l h
  have h2 : processLine s l = endOfSentence s := by
    simp only [processLine, hl, List.length_nil, if_true]
  exact ⟨h2.trans (rfl : processLine s [] = endOfSentence s).symm, h2⟩

/-- Witness for C10: a line holding one space and one tab acts as a
sentence terminator from the initial state. -/
theorem C10_whitespace_line_witness :
    processLine initState [' ', '\t'] = processLine initState [] ∧
    processLine initState [' ', '\t'] = endOfSentence initState :=
  C10_whitespace_line [' ', '\t'] (by decide) initState

end WordSeg
